import Mathlib

/-!
Verification of the boldibuild incremental build engine (src/boldibuild.py).

Shallow embedding conventions:
* Python insertion-ordered dicts become association lists (`alGet`, `alSet`,
  `alErase` mirror `d[k]`, `d[k] = v`, `d.pop(k, None)`).
* The external world (the filesystem read by handler `stamp` functions and
  mutated by `build_impl` bodies) is a type parameter `σ`.
* A handler's `build_impl` body is modelled as a list of steps: world
  mutations and `register_dependency` callback invocations, executed in order.
* `build` is recursive in the source with no termination guarantee (the
  engine assumes a DAG); the embedding adds an explicit fuel parameter.
* Invocations of `build` (the `print` at the top of `Build.build`) and of
  `handler.build_impl` are recorded in an event trace, and the on-disk copy
  of the build database is carried alongside the in-memory one, so that
  claims about "rebuild_impl is invoked" and "the DB is persisted" are
  stateable.
-/

namespace Boldibuild

abbrev Target := String

abbrev Stamp := String

/-- Python dict lookup `d[k]` / `d.get(k)`: the first binding of the key. -/
def alGet {α : Type} : List (String × α) → String → Option α
  | [], _ => none
  | (k, v) :: rest, key => if k = key then some v else alGet rest key

/-- Python dict assignment `d[k] = v`: update in place if the key is
present (keeping its position), else append at the end. -/
def alSet {α : Type} : List (String × α) → String → α → List (String × α)
  | [], key, val => [(key, val)]
  | (k, v) :: rest, key, val =>
      if k = key then (k, val) :: rest else (k, v) :: alSet rest key val

/-- Python `d.pop(k, None)`'s removal effect: drop the binding of the key. -/
def alErase {α : Type} (m : List (String × α)) (key : String) : List (String × α) :=
  m.filter (fun kv => !(kv.1 == key))

/-- Key presence in an association list. -/
def hasKey {α : Type} (m : List (String × α)) (key : String) : Bool :=
  (alGet m key).isSome

/-- `BuildDB` (src/boldibuild.py lines 13-18): the two persisted maps. -/
structure BuildDB where
  targets : List (Target × Stamp)
  dependencies : List (Target × List (Target × Stamp))
deriving DecidableEq

def emptyDB : BuildDB := ⟨[], []⟩

theorem alGet_alSet_self {α : Type} (m : List (String × α)) (k : String) (v : α) :
    alGet (alSet m k v) k = some v := by
  induction m with
  | nil => simp [alSet, alGet]
  | cons kv rest ih =>
      by_cases h : kv.1 = k
      · simp [alSet, alGet, h]
      · simp [alSet, alGet, h, ih]

theorem alGet_alSet_ne {α : Type} (m : List (String × α)) (k k' : String) (v : α)
    (h : k ≠ k') : alGet (alSet m k v) k' = alGet m k' := by
  induction m with
  | nil => simp [alSet, alGet, h]
  | cons kv rest ih =>
      by_cases hk : kv.1 = k
      · simp [alSet, alGet, hk, h, ih]
      · simp only [alSet, hk, if_false]
        by_cases hk' : kv.1 = k'
        · simp [alGet, hk']
        · simp [alGet, hk', ih]

theorem alGet_alErase_self {α : Type} (m : List (String × α)) (k : String) :
    alGet (alErase m k) k = none := by
  induction m with
  | nil => simp [alErase, alGet]
  | cons kv rest ih =>
      by_cases h : kv.1 = k
      · simpa [alErase, alGet, h] using ih
      · simpa [alErase, alGet, h] using ih

theorem alGet_alErase_ne {α : Type} (m : List (String × α)) (k k' : String)
    (h : k ≠ k') : alGet (alErase m k) k' = alGet m k' := by
  induction m with
  | nil => simp [alErase, alGet]
  | cons kv rest ih =>
      by_cases hk : kv.1 = k
      · have hk' : kv.1 ≠ k' := by rw [hk]; exact h
        rw [show alErase (kv :: rest) k = alErase rest k by simp [alErase, hk]]
        rw [show alGet (kv :: rest) k' = alGet rest k' by simp [alGet, hk']]
        exact ih
      · rw [show alErase (kv :: rest) k = kv :: alErase rest k by simp [alErase, hk]]
        by_cases hk' : kv.1 = k'
        · simp [alGet, hk']
        · simp [alGet, hk', ih]

theorem alGet_append {α : Type} (m l : List (String × α)) (k : String) :
    alGet (m ++ l) k = ((alGet m k).or (alGet l k)) := by
  induction m with
  | nil => simp [alGet]
  | cons kv rest ih =>
      by_cases h : kv.1 = k
      · simp [alGet, h]
      · simp [alGet, h, ih]

/-- JSON values, the structured documents read by `BuildDB.load`. -/
inductive JVal where
  | null
  | bool (b : Bool)
  | num (n : Int)
  | str (s : String)
  | arr (elems : List JVal)
  | obj (fields : List (String × JVal))

/-- Stamp values inside a loaded document. `save` only ever writes string
stamps; a non-string value kept raw by Python's `dict.update` is modelled by
the empty sentinel, which is observationally equivalent for the engine: a
stored stamp is only ever compared (via `stamps_match`) against a freshly
computed string stamp, and a non-string Python value never equals a string,
exactly as the empty sentinel never matches anything. -/
def stampOfJ : JVal → Stamp
  | JVal.str s => s
  | _ => ""

/-- The Python key a pair-sequence element contributes. The engine only
ever looks up string targets (filesystem paths), and a non-string Python
key never equals a string, so non-string keys are represented by a
null-byte-prefixed rendering that no path string equals. -/
def jKeyStr : JVal → String
  | JVal.str s => s
  | JVal.num n => "\x00num " ++ toString n
  | JVal.bool b => "\x00bool " ++ toString b
  | JVal.null => "\x00null"
  | JVal.arr _ => "\x00arr"
  | JVal.obj _ => "\x00obj"

/-- One element of a key/value pair sequence consumed by `dict.update`
(CPython's PyDict_MergeFromSeq2): the element must itself be iterable
(else TypeError), of length 2 (else ValueError), and its key must be
hashable (else TypeError). Iterating a two-character string yields its two
characters; iterating a two-entry object yields its two keys. -/
def seqElemPair : JVal → Except String (Target × Stamp)
  | JVal.arr l =>
      match l with
      | [k, v] =>
          match k with
          | JVal.arr _ => Except.error "TypeError: unhashable type"
          | JVal.obj _ => Except.error "TypeError: unhashable type"
          | _ => Except.ok (jKeyStr k, stampOfJ v)
      | _ => Except.error "ValueError: dictionary update sequence element has wrong length"
  | JVal.str s =>
      match s.toList with
      | [c1, c2] => Except.ok (String.mk [c1], String.mk [c2])
      | _ => Except.error "ValueError: dictionary update sequence element has wrong length"
  | JVal.obj l =>
      match l with
      | [kv1, kv2] => Except.ok (kv1.1, kv2.1)
      | _ => Except.error "ValueError: dictionary update sequence element has wrong length"
  | _ => Except.error "TypeError: cannot convert dictionary update sequence element to a sequence"

/-- The key/value pairs a sequence passed to `dict.update` contributes, in
order; the first bad element aborts with its exception. -/
def seqPairs : List JVal → Except String (List (Target × Stamp))
  | [] => Except.ok []
  | e :: rest =>
      match seqElemPair e with
      | Except.error msg => Except.error msg
      | Except.ok p =>
          match seqPairs rest with
          | Except.error msg => Except.error msg
          | Except.ok ps => Except.ok (p :: ps)

/-- `dict.update(v)` on a JSON value `v`: a mapping contributes its items;
any other iterable is consumed as a sequence of key/value pairs (so the
empty string and the empty array update nothing, and `[["a","b"]]` or
`"ab"` contribute a pair); a non-iterable value (number, boolean, null)
raises TypeError. A non-empty string always fails the per-element length
check (its elements are single characters), raising ValueError. -/
def dictUpdate : JVal → Except String (List (Target × Stamp))
  | JVal.obj fields => Except.ok (fields.map (fun kv => (kv.1, stampOfJ kv.2)))
  | JVal.arr elems => seqPairs elems
  | JVal.str s =>
      if s = "" then Except.ok []
      else Except.error "ValueError: dictionary update sequence element has wrong length"
  | _ => Except.error "TypeError: object is not iterable"

/-- Applying a pair sequence to a fresh dict: set each pair in order
(later duplicates overwrite in place). -/
def updatePairs (pairs : List (Target × Stamp)) : List (Target × Stamp) :=
  pairs.foldl (fun acc kv => alSet acc kv.1 kv.2) []

/-- A value stored under a target inside the `"dependencies"` document:
an object's items (a parsed dict). A non-object value is kept raw by the
source and only blows up later, at build time, when its `.items()` is
iterated; it is modelled as empty here (such a value is never produced by
`save`). -/
def innerDeps : JVal → List (Target × Stamp)
  | JVal.obj inner => inner.foldl (fun acc kv => alSet acc kv.1 (stampOfJ kv.2)) []
  | _ => []

/-- The `dependencies` map built by load's assignment loop (lines 33-34). -/
def depsOfFields (dfs : List (String × JVal)) : List (Target × List (Target × Stamp)) :=
  dfs.foldl (fun acc kv => alSet acc kv.1 (innerDeps kv.2)) []

/-- `BuildDB.load` (src/boldibuild.py lines 20-34). The `open`+`json.load`
of the path is abstracted as the `Option JVal` input: `none` is the
`except (json.JSONDecodeError, OSError)` branch (missing, unreadable or
malformed file), which yields `{}`; a non-object top level is replaced by
`{}` (line 27); missing keys default to `{}`. The `"targets"` value goes
through `dict.update` (`dictUpdate`, which can raise); the
`"dependencies"` value must be an object for `.items()`, else
AttributeError. The update of `targets` happens before `dependencies` is
touched, so its exception wins. -/
def BuildDB.load (input : Option JVal) : Except String BuildDB :=
  let fields : List (String × JVal) :=
    match input with
    | some (JVal.obj fs) => fs
    | _ => []
  match dictUpdate ((alGet fields "targets").getD (JVal.obj [])) with
  | Except.error msg => Except.error msg
  | Except.ok tpairs =>
      match (alGet fields "dependencies").getD (JVal.obj []) with
      | JVal.obj dfs => Except.ok ⟨updatePairs tpairs, depsOfFields dfs⟩
      | _ => Except.error "AttributeError: dependencies value has no .items"

/-- Whether a JSON value is an object (a Python mapping). -/
def JVal.isObj : JVal → Bool
  | JVal.obj _ => true
  | _ => false

/-- `Handler.stamps_match` (src/boldibuild.py lines 59-60):
`a and b and a == b`. No subclass in the source overrides it, so it is a
single function here. -/
def stampsMatch (a b : Stamp) : Bool :=
  !(a == "") && (!(b == "") && (a == b))

/-- A build-impl body is modelled as a list of steps executed in order:
world mutations, and invocations of the bound `register_dependency`
callback. -/
inductive BIStep (σ : Type) where
  | mutate (f : σ → σ)
  | register (dep : Target)

/-- The dependencies a build-impl body registers, in invocation order. -/
def registersOf {σ : Type} : List (BIStep σ) → List Target
  | [] => []
  | BIStep.mutate _ :: rest => registersOf rest
  | BIStep.register d :: rest => d :: registersOf rest

/-- `Handler` (src/boldibuild.py lines 52-63) as a record of its three
target-dependent operations (`stamps_match` is shared, see above).
`stamp` reads the external world `σ`. -/
structure Handler (σ : Type) where
  can_handle : Target → Bool
  stamp : σ → Target → Stamp
  build_impl : Target → List (BIStep σ)

/-- The base/null handler: the class defaults, `can_handle` False (line 54),
`stamp` "" (line 57), `build_impl` pass (line 63) — a no-op body. -/
def baseHandler (σ : Type) : Handler σ :=
  ⟨fun _ => false, fun _ _ => "", fun _ => []⟩

/-- `Build.get_handler` (lines 90-94): first handler in the chain whose
`can_handle` accepts the target, else a fresh base `Handler()`. -/
def getHandler {σ : Type} (hs : List (Handler σ)) (t : Target) : Handler σ :=
  match hs.find? (fun h => h.can_handle t) with
  | some h => h
  | none => baseHandler σ

/-- The `os.stat_result` fields used by `FileHandler.stamp`. -/
structure StatResult where
  st_mode : Int
  st_ino : Int
  st_dev : Int
  st_uid : Int
  st_gid : Int
  st_size : Int
  st_mtime_ns : Int
  st_ctime_ns : Int
deriving DecidableEq

/-- `FileHandler.stamp` (src/boldibuild.py lines 67-73): the `Path.stat`
call is abstracted as an `Option StatResult`-valued function (`none` is the
`except OSError` branch). On success the stamp is the f-string
interpolating the eight retained stat fields separated by single spaces;
on failure the empty sentinel. -/
def fileStamp (statF : Target → Option StatResult) (t : Target) : Stamp :=
  match statF t with
  | none => ""
  | some s =>
      toString s.st_mode ++ " " ++ toString s.st_ino ++ " " ++ toString s.st_dev ++ " " ++
        toString s.st_uid ++ " " ++ toString s.st_gid ++ " " ++ toString s.st_size ++ " " ++
        toString s.st_mtime_ns ++ " " ++ toString s.st_ctime_ns

/-- The stamp format the spec prescribes: the stat fields mode, inode,
device, uid, gid, size, mtime_ns, ctime_ns rendered as decimal integers,
in that fixed order. -/
def statFieldsList (s : StatResult) : List String :=
  [toString s.st_mode, toString s.st_ino, toString s.st_dev, toString s.st_uid,
   toString s.st_gid, toString s.st_size, toString s.st_mtime_ns, toString s.st_ctime_ns]

/-- The spec-side stamp string: the fields joined by single spaces. -/
def specFileStamp (s : StatResult) : Stamp :=
  String.intercalate " " (statFieldsList s)

/-- Observable engine events: `buildCall t` is the `print` at the top of
`Build.build` (line 109), `buildImplCall t` is the `handler.build_impl`
invocation inside `Build.rebuild` (line 104). -/
inductive Event where
  | buildCall (t : Target)
  | buildImplCall (t : Target)
deriving DecidableEq

def isImplCall : Event → Bool
  | Event.buildImplCall _ => true
  | Event.buildCall _ => false

/-- The full engine state: the external world, the in-memory `BuildDB`,
its on-disk copy, and the event trace. -/
structure EngineState (σ : Type) where
  world : σ
  db : BuildDB
  disk : BuildDB
  events : List Event
deriving DecidableEq

def pushEvent {σ : Type} (st : EngineState σ) (e : Event) : EngineState σ :=
  { st with events := st.events ++ [e] }

/-- `self.db.targets[target]` on the `defaultdict(Stamp)` (line 111): a
read that inserts the empty stamp when the key is absent. -/
def targetsGetD {σ : Type} (st : EngineState σ) (t : Target) : Stamp × EngineState σ :=
  match alGet st.db.targets t with
  | some s => (s, st)
  | none =>
      ("", { st with db := { st.db with targets := st.db.targets ++ [(t, "")] } })

/-- `self.db.dependencies[target]` on the `defaultdict(dict)` (line 116): a
read that inserts the empty dict when the key is absent. -/
def depsGetD {σ : Type} (st : EngineState σ) (t : Target) :
    List (Target × Stamp) × EngineState σ :=
  match alGet st.db.dependencies t with
  | some l => (l, st)
  | none =>
      ([], { st with db := { st.db with dependencies := st.db.dependencies ++ [(t, [])] } })

/-- `Build.register_dependency` (lines 96-98): resolve the dependency's
handler, compute its current stamp, and write
`dependencies[target][dependency] = stamp`. -/
def registerDependency {σ : Type} (hs : List (Handler σ)) (st : EngineState σ)
    (target dep : Target) : EngineState σ :=
  let dh := getHandler hs dep
  let s := dh.stamp st.world dep
  let inner := (alGet st.db.dependencies target).getD []
  { st with db := { st.db with dependencies := alSet st.db.dependencies target (alSet inner dep s) } }

/-- Execution of a build-impl body: its steps in order, with the
registration callback bound to `target`. -/
def runSteps {σ : Type} (hs : List (Handler σ)) (target : Target) :
    EngineState σ → List (BIStep σ) → EngineState σ
  | st, [] => st
  | st, BIStep.mutate f :: rest => runSteps hs target { st with world := f st.world } rest
  | st, BIStep.register d :: rest => runSteps hs target (registerDependency hs st target d) rest

/-- `Build.rebuild` (lines 100-106): pop the target's stamp and dependency
record, run the handler's build-impl body, record the new stamp, and
return whether the new stamp matches the popped one. -/
def rebuild {σ : Type} (hs : List (Handler σ)) (st : EngineState σ) (target : Target) :
    EngineState σ × Bool :=
  let handler := getHandler hs target
  let oldStamp := alGet st.db.targets target
  let st1 : EngineState σ :=
    { st with db := { st.db with
                        targets := alErase st.db.targets target
                        dependencies := alErase st.db.dependencies target } }
  let st2 := pushEvent st1 (Event.buildImplCall target)
  let st3 := runSteps hs target st2 (handler.build_impl target)
  let newStamp := handler.stamp st3.world target
  let st4 : EngineState σ :=
    { st3 with db := { st3.db with targets := alSet st3.db.targets target newStamp } }
  (st4, match oldStamp with
        | none => false
        | some o => stampsMatch o newStamp)

/-- The dependency loop of `Build.build` (lines 116-132): for each recorded
dependency in order, run a sub-build (its result discarded), re-read the
dependency's stamp, and on a mismatch against the recorded stamp return
the result of rebuilding `target`; `none` means the loop ran through. -/
def depsLoop {σ : Type} (hs : List (Handler σ))
    (sub : EngineState σ → Target → EngineState σ × Bool) (target : Target) :
    EngineState σ → List (Target × Stamp) → EngineState σ × Option Bool
  | st, [] => (st, none)
  | st, (dep, oldDepStamp) :: rest =>
      let st1 := (sub st dep).1
      let newDepStamp := (getHandler hs dep).stamp st1.world dep
      if stampsMatch oldDepStamp newDepStamp then depsLoop hs sub target st1 rest
      else
        let r := rebuild hs st1 target
        (r.1, some r.2)

/-- `Build.build` (lines 108-135) with an explicit fuel for the unbounded
recursion: log the call, check the target's own stamp against its recorded
stamp, rebuild on mismatch, otherwise walk the recorded dependencies. -/
def build {σ : Type} (hs : List (Handler σ)) : Nat → EngineState σ → Target →
    EngineState σ × Bool
  | 0, st, _ => (st, false)
  | Nat.succ n, st, target =>
      let st0 := pushEvent st (Event.buildCall target)
      let handler := getHandler hs target
      let p := targetsGetD st0 target
      let curStamp := handler.stamp p.2.world target
      if stampsMatch p.1 curStamp then
        let q := depsGetD p.2 target
        match depsLoop hs (build hs n) target q.2 q.1 with
        | (st', some b) => (st', b)
        | (st', none) => (st', true)
      else rebuild hs p.2 target

/-- `Build.save_build_db` (lines 140-141) together with `BuildDB.save`:
persist the in-memory DB to disk. -/
def saveBuildDB {σ : Type} (st : EngineState σ) : EngineState σ :=
  { st with disk := st.db }

/-- The state and dependency snapshot at the top of `build`'s dependency
loop, when the self-stamp check has passed: the call has been logged and
the `defaultdict` read of `dependencies[target]` has happened. -/
def buildLoopEntry {σ : Type} (st : EngineState σ) (T : Target) :
    List (Target × Stamp) × EngineState σ :=
  depsGetD (pushEvent st (Event.buildCall T)) T

/-- Each recorded dependency's stamp, re-read after its own sub-build
completes, matches the stamp recorded for it: the run of `build`'s
dependency loop in which no per-dependency comparison fails. -/
def depsAllFreshB {σ : Type} (hs : List (Handler σ))
    (sub : EngineState σ → Target → EngineState σ × Bool) :
    EngineState σ → List (Target × Stamp) → Bool
  | _, [] => true
  | st, (dep, oldDepStamp) :: rest =>
      let st1 := (sub st dep).1
      stampsMatch oldDepStamp ((getHandler hs dep).stamp st1.world dep)
        && depsAllFreshB hs sub st1 rest

/-! ### Projection lemmas for the engine operations -/

theorem registerDependency_world {σ : Type} (hs : List (Handler σ)) (st : EngineState σ)
    (t d : Target) : (registerDependency hs st t d).world = st.world := rfl

theorem registerDependency_disk {σ : Type} (hs : List (Handler σ)) (st : EngineState σ)
    (t d : Target) : (registerDependency hs st t d).disk = st.disk := rfl

theorem registerDependency_events {σ : Type} (hs : List (Handler σ)) (st : EngineState σ)
    (t d : Target) : (registerDependency hs st t d).events = st.events := rfl

theorem registerDependency_targets {σ : Type} (hs : List (Handler σ)) (st : EngineState σ)
    (t d : Target) : (registerDependency hs st t d).db.targets = st.db.targets := rfl

theorem runSteps_disk {σ : Type} (hs : List (Handler σ)) (t : Target) :
    ∀ (steps : List (BIStep σ)) (st : EngineState σ),
      (runSteps hs t st steps).disk = st.disk := by
  intro steps
  induction steps with
  | nil => intro st; rfl
  | cons s rest ih =>
      intro st
      cases s with
      | mutate f => simpa [runSteps] using ih _
      | register d => simpa [runSteps, registerDependency_disk] using ih _

theorem runSteps_events {σ : Type} (hs : List (Handler σ)) (t : Target) :
    ∀ (steps : List (BIStep σ)) (st : EngineState σ),
      (runSteps hs t st steps).events = st.events := by
  intro steps
  induction steps with
  | nil => intro st; rfl
  | cons s rest ih =>
      intro st
      cases s with
      | mutate f => simpa [runSteps] using ih _
      | register d => simpa [runSteps, registerDependency_events] using ih _

theorem runSteps_targets {σ : Type} (hs : List (Handler σ)) (t : Target) :
    ∀ (steps : List (BIStep σ)) (st : EngineState σ),
      (runSteps hs t st steps).db.targets = st.db.targets := by
  intro steps
  induction steps with
  | nil => intro st; rfl
  | cons s rest ih =>
      intro st
      cases s with
      | mutate f => simpa [runSteps] using ih _
      | register d => simpa [runSteps, registerDependency_targets] using ih _

theorem rebuild_disk {σ : Type} (hs : List (Handler σ)) (st : EngineState σ) (t : Target) :
    (rebuild hs st t).1.disk = st.disk := by
  simp [rebuild, runSteps_disk, pushEvent]

theorem rebuild_events {σ : Type} (hs : List (Handler σ)) (st : EngineState σ) (t : Target) :
    (rebuild hs st t).1.events = st.events ++ [Event.buildImplCall t] := by
  simp [rebuild, runSteps_events, pushEvent]

theorem rebuild_targets_self {σ : Type} (hs : List (Handler σ)) (st : EngineState σ)
    (t : Target) :
    alGet (rebuild hs st t).1.db.targets t =
      some ((getHandler hs t).stamp (rebuild hs st t).1.world t) := by
  simp [rebuild, alGet_alSet_self]

theorem rebuild_targets_ne {σ : Type} (hs : List (Handler σ)) (st : EngineState σ)
    (t k : Target) (h : t ≠ k) :
    alGet (rebuild hs st t).1.db.targets k = alGet st.db.targets k := by
  simp [rebuild, runSteps_targets, pushEvent, alGet_alSet_ne _ t k _ h,
    alGet_alErase_ne _ t k h]

theorem hasKey_alSet_mono {α : Type} (m : List (String × α)) (k k' : String) (v : α)
    (h : hasKey m k' = true) : hasKey (alSet m k v) k' = true := by
  by_cases hk : k = k'
  · simp [hasKey, hk, alGet_alSet_self]
  · simpa [hasKey, alGet_alSet_ne m k k' v hk] using h

theorem hasKey_alSet_self {α : Type} (m : List (String × α)) (k : String) (v : α) :
    hasKey (alSet m k v) k = true := by
  simp [hasKey, alGet_alSet_self]

theorem rebuild_hasKey_mono {σ : Type} (hs : List (Handler σ)) (st : EngineState σ)
    (t k : Target) (h : hasKey st.db.targets k = true) :
    hasKey (rebuild hs st t).1.db.targets k = true := by
  by_cases hk : t = k
  · subst hk
    simp [hasKey, rebuild_targets_self]
  · simpa [hasKey, rebuild_targets_ne hs st t k hk] using h

theorem rebuild_hasKey_self {σ : Type} (hs : List (Handler σ)) (st : EngineState σ)
    (t : Target) : hasKey (rebuild hs st t).1.db.targets t = true := by
  simp [hasKey, rebuild_targets_self]

theorem targetsGetD_world {σ : Type} (st : EngineState σ) (t : Target) :
    (targetsGetD st t).2.world = st.world := by
  cases h : alGet st.db.targets t <;> simp [targetsGetD, h]

theorem targetsGetD_disk {σ : Type} (st : EngineState σ) (t : Target) :
    (targetsGetD st t).2.disk = st.disk := by
  cases h : alGet st.db.targets t <;> simp [targetsGetD, h]

theorem targetsGetD_events {σ : Type} (st : EngineState σ) (t : Target) :
    (targetsGetD st t).2.events = st.events := by
  cases h : alGet st.db.targets t <;> simp [targetsGetD, h]

theorem targetsGetD_hasKey_mono {σ : Type} (st : EngineState σ) (t k : Target)
    (h : hasKey st.db.targets k = true) :
    hasKey (targetsGetD st t).2.db.targets k = true := by
  cases ht : alGet st.db.targets t with
  | some s => simpa [targetsGetD, ht] using h
  | none =>
      simp only [targetsGetD, ht]
      simp only [hasKey, alGet_append] at h ⊢
      cases hk : alGet st.db.targets k with
      | some v => simp
      | none => rw [hk] at h; simp at h

theorem targetsGetD_hasKey_self {σ : Type} (st : EngineState σ) (t : Target) :
    hasKey (targetsGetD st t).2.db.targets t = true := by
  cases ht : alGet st.db.targets t with
  | some s => simp [targetsGetD, ht, hasKey]
  | none => simp [targetsGetD, ht, hasKey, alGet_append, alGet]

theorem depsGetD_world {σ : Type} (st : EngineState σ) (t : Target) :
    (depsGetD st t).2.world = st.world := by
  cases h : alGet st.db.dependencies t <;> simp [depsGetD, h]

theorem depsGetD_disk {σ : Type} (st : EngineState σ) (t : Target) :
    (depsGetD st t).2.disk = st.disk := by
  cases h : alGet st.db.dependencies t <;> simp [depsGetD, h]

theorem depsGetD_events {σ : Type} (st : EngineState σ) (t : Target) :
    (depsGetD st t).2.events = st.events := by
  cases h : alGet st.db.dependencies t <;> simp [depsGetD, h]

theorem depsGetD_targets {σ : Type} (st : EngineState σ) (t : Target) :
    (depsGetD st t).2.db.targets = st.db.targets := by
  cases h : alGet st.db.dependencies t <;> simp [depsGetD, h]

/-! ### The dependency loop and `build`: trace extension, disk and key-set
monotonicity -/

theorem depsLoop_events_ext {σ : Type} (hs : List (Handler σ))
    (sub : EngineState σ → Target → EngineState σ × Bool) (T : Target)
    (hsub : ∀ st d, ∃ tl, ((sub st d).1).events = st.events ++ tl) :
    ∀ (l : List (Target × Stamp)) (st : EngineState σ),
      ∃ tl, ((depsLoop hs sub T st l).1).events = st.events ++ tl := by
  intro l
  induction l with
  | nil => intro st; exact ⟨[], by simp [depsLoop]⟩
  | cons dp rest ih =>
      intro st
      obtain ⟨tl1, h1⟩ := hsub st dp.1
      by_cases hm :
          stampsMatch dp.2 ((getHandler hs dp.1).stamp ((sub st dp.1).1).world dp.1) = true
      · obtain ⟨tl2, h2⟩ := ih ((sub st dp.1).1)
        refine ⟨tl1 ++ tl2, ?_⟩
        simp [depsLoop, hm, h2, h1]
      · refine ⟨tl1 ++ [Event.buildImplCall T], ?_⟩
        simp [depsLoop, hm, rebuild_events, h1]

theorem build_events_ext {σ : Type} (hs : List (Handler σ)) :
    ∀ (fuel : Nat) (st : EngineState σ) (t : Target),
      ∃ tl, ((build hs fuel st t).1).events = st.events ++ tl := by
  intro fuel
  induction fuel with
  | zero => intro st t; exact ⟨[], by simp [build]⟩
  | succ n ih =>
      intro st t
      rw [build]
      by_cases hm :
          stampsMatch (targetsGetD (pushEvent st (Event.buildCall t)) t).1
            ((getHandler hs t).stamp (targetsGetD (pushEvent st (Event.buildCall t)) t).2.world t) = true
      · simp only [hm, if_true]
        obtain ⟨tl, htl⟩ :=
          depsLoop_events_ext hs (build hs n) t ih
            (depsGetD (targetsGetD (pushEvent st (Event.buildCall t)) t).2 t).1
            (depsGetD (targetsGetD (pushEvent st (Event.buildCall t)) t).2 t).2
        rw [depsGetD_events, targetsGetD_events] at htl
        rcases hdl : depsLoop hs (build hs n) t
            (depsGetD (targetsGetD (pushEvent st (Event.buildCall t)) t).2 t).2
            (depsGetD (targetsGetD (pushEvent st (Event.buildCall t)) t).2 t).1 with ⟨st', ob⟩
        rw [hdl] at htl
        cases ob with
        | none => exact ⟨Event.buildCall t :: tl, by simpa [pushEvent] using htl⟩
        | some b => exact ⟨Event.buildCall t :: tl, by simpa [pushEvent] using htl⟩
      · rw [if_neg hm]
        refine ⟨[Event.buildCall t, Event.buildImplCall t], ?_⟩
        rw [rebuild_events, targetsGetD_events]
        simp [pushEvent]

theorem events_mem_of_ext {σ : Type} {st : EngineState σ} {evs : List Event} {e : Event}
    (h : ∃ tl, evs = st.events ++ tl) (he : e ∈ st.events) : e ∈ evs := by
  obtain ⟨tl, rfl⟩ := h
  exact List.mem_append_left _ he

theorem build_buildCall_mem {σ : Type} (hs : List (Handler σ)) (n : Nat)
    (st : EngineState σ) (t : Target) :
    Event.buildCall t ∈ ((build hs (n+1) st t).1).events := by
  rw [build]
  by_cases hm :
      stampsMatch (targetsGetD (pushEvent st (Event.buildCall t)) t).1
        ((getHandler hs t).stamp (targetsGetD (pushEvent st (Event.buildCall t)) t).2.world t) = true
  · simp only [hm, if_true]
    obtain ⟨tl, htl⟩ :=
      depsLoop_events_ext hs (build hs n) t (build_events_ext hs n)
        (depsGetD (targetsGetD (pushEvent st (Event.buildCall t)) t).2 t).1
        (depsGetD (targetsGetD (pushEvent st (Event.buildCall t)) t).2 t).2
    rw [depsGetD_events, targetsGetD_events] at htl
    rcases hdl : depsLoop hs (build hs n) t
        (depsGetD (targetsGetD (pushEvent st (Event.buildCall t)) t).2 t).2
        (depsGetD (targetsGetD (pushEvent st (Event.buildCall t)) t).2 t).1 with ⟨st', ob⟩
    rw [hdl] at htl
    have : Event.buildCall t ∈ st'.events := by
      rw [htl]
      simp [pushEvent]
    cases ob with
    | none => simpa using this
    | some b => simpa using this
  · rw [if_neg hm]
    rw [show ((rebuild hs (targetsGetD (pushEvent st (Event.buildCall t)) t).2 t).1).events =
        ((targetsGetD (pushEvent st (Event.buildCall t)) t).2).events ++ [Event.buildImplCall t]
      from rebuild_events _ _ _]
    rw [targetsGetD_events]
    simp [pushEvent]

theorem depsLoop_disk {σ : Type} (hs : List (Handler σ))
    (sub : EngineState σ → Target → EngineState σ × Bool) (T : Target)
    (hsub : ∀ st d, ((sub st d).1).disk = st.disk) :
    ∀ (l : List (Target × Stamp)) (st : EngineState σ),
      ((depsLoop hs sub T st l).1).disk = st.disk := by
  intro l
  induction l with
  | nil => intro st; simp [depsLoop]
  | cons dp rest ih =>
      intro st
      by_cases hm :
          stampsMatch dp.2 ((getHandler hs dp.1).stamp ((sub st dp.1).1).world dp.1) = true
      · simp [depsLoop, hm, ih, hsub]
      · simp [depsLoop, hm, rebuild_disk, hsub]

theorem build_disk {σ : Type} (hs : List (Handler σ)) :
    ∀ (fuel : Nat) (st : EngineState σ) (t : Target),
      ((build hs fuel st t).1).disk = st.disk := by
  intro fuel
  induction fuel with
  | zero => intro st t; simp [build]
  | succ n ih =>
      intro st t
      rw [build]
      by_cases hm :
          stampsMatch (targetsGetD (pushEvent st (Event.buildCall t)) t).1
            ((getHandler hs t).stamp (targetsGetD (pushEvent st (Event.buildCall t)) t).2.world t) = true
      · simp only [hm, if_true]
        have hdk :=
          depsLoop_disk hs (build hs n) t (fun st d => ih st d)
            (depsGetD (targetsGetD (pushEvent st (Event.buildCall t)) t).2 t).1
            (depsGetD (targetsGetD (pushEvent st (Event.buildCall t)) t).2 t).2
        rw [depsGetD_disk, targetsGetD_disk] at hdk
        rcases hdl : depsLoop hs (build hs n) t
            (depsGetD (targetsGetD (pushEvent st (Event.buildCall t)) t).2 t).2
            (depsGetD (targetsGetD (pushEvent st (Event.buildCall t)) t).2 t).1 with ⟨st', ob⟩
        rw [hdl] at hdk
        cases ob with
        | none => simpa [pushEvent] using hdk
        | some b => simpa [pushEvent] using hdk
      · rw [if_neg hm]
        rw [rebuild_disk, targetsGetD_disk]
        simp [pushEvent]

theorem depsLoop_hasKey_mono {σ : Type} (hs : List (Handler σ))
    (sub : EngineState σ → Target → EngineState σ × Bool) (T : Target)
    (hsub : ∀ st d k, hasKey st.db.targets k = true →
      hasKey ((sub st d).1).db.targets k = true) :
    ∀ (l : List (Target × Stamp)) (st : EngineState σ) (k : Target),
      hasKey st.db.targets k = true →
      hasKey ((depsLoop hs sub T st l).1).db.targets k = true := by
  intro l
  induction l with
  | nil => intro st k h; simpa [depsLoop] using h
  | cons dp rest ih =>
      intro st k h
      by_cases hm :
          stampsMatch dp.2 ((getHandler hs dp.1).stamp ((sub st dp.1).1).world dp.1) = true
      · simp only [depsLoop, hm, if_true]
        exact ih _ _ (hsub st dp.1 k h)
      · simp only [depsLoop, hm, if_false]
        exact rebuild_hasKey_mono hs _ T k (hsub st dp.1 k h)

theorem build_hasKey_mono {σ : Type} (hs : List (Handler σ)) :
    ∀ (fuel : Nat) (st : EngineState σ) (t k : Target),
      hasKey st.db.targets k = true →
      hasKey ((build hs fuel st t).1).db.targets k = true := by
  intro fuel
  induction fuel with
  | zero => intro st t k h; simpa [build] using h
  | succ n ih =>
      intro st t k h
      rw [build]
      have h0 : hasKey ((targetsGetD (pushEvent st (Event.buildCall t)) t).2).db.targets k = true :=
        targetsGetD_hasKey_mono _ t k (by simpa [pushEvent] using h)
      by_cases hm :
          stampsMatch (targetsGetD (pushEvent st (Event.buildCall t)) t).1
            ((getHandler hs t).stamp (targetsGetD (pushEvent st (Event.buildCall t)) t).2.world t) = true
      · simp only [hm, if_true]
        have hdk :=
          depsLoop_hasKey_mono hs (build hs n) t (fun st d kk hh => ih st d kk hh)
            (depsGetD (targetsGetD (pushEvent st (Event.buildCall t)) t).2 t).1
            (depsGetD (targetsGetD (pushEvent st (Event.buildCall t)) t).2 t).2 k
            (by rw [depsGetD_targets]; exact h0)
        rcases hdl : depsLoop hs (build hs n) t
            (depsGetD (targetsGetD (pushEvent st (Event.buildCall t)) t).2 t).2
            (depsGetD (targetsGetD (pushEvent st (Event.buildCall t)) t).2 t).1 with ⟨st', ob⟩
        rw [hdl] at hdk
        cases ob with
        | none => simpa using hdk
        | some b => simpa using hdk
      · rw [if_neg hm]
        exact rebuild_hasKey_mono hs _ t k h0

theorem build_hasKey_self {σ : Type} (hs : List (Handler σ)) (n : Nat)
    (st : EngineState σ) (t : Target) :
    hasKey ((build hs (n+1) st t).1).db.targets t = true := by
  rw [build]
  have h0 : hasKey ((targetsGetD (pushEvent st (Event.buildCall t)) t).2).db.targets t = true :=
    targetsGetD_hasKey_self _ t
  by_cases hm :
      stampsMatch (targetsGetD (pushEvent st (Event.buildCall t)) t).1
        ((getHandler hs t).stamp (targetsGetD (pushEvent st (Event.buildCall t)) t).2.world t) = true
  · simp only [hm, if_true]
    have hdk :=
      depsLoop_hasKey_mono hs (build hs n) t (fun st d kk hh => build_hasKey_mono hs n st d kk hh)
        (depsGetD (targetsGetD (pushEvent st (Event.buildCall t)) t).2 t).1
        (depsGetD (targetsGetD (pushEvent st (Event.buildCall t)) t).2 t).2 t
        (by rw [depsGetD_targets]; exact h0)
    rcases hdl : depsLoop hs (build hs n) t
        (depsGetD (targetsGetD (pushEvent st (Event.buildCall t)) t).2 t).2
        (depsGetD (targetsGetD (pushEvent st (Event.buildCall t)) t).2 t).1 with ⟨st', ob⟩
    rw [hdl] at hdk
    cases ob with
    | none => simpa using hdk
    | some b => simpa using hdk
  · rw [if_neg hm]
    exact rebuild_hasKey_self hs _ t

/-! ### Reduction of `build` on the fresh path, and runs of the dependency
loop in which every comparison succeeds -/

theorem stampsMatch_left_ne_empty {a b : Stamp} (h : stampsMatch a b = true) : a ≠ "" := by
  intro ha
  subst ha
  simp [stampsMatch] at h

/-- When the target's own stamp check passes, `build` proceeds to the
dependency loop started from `buildLoopEntry`. -/
theorem build_succ_of_selfMatch {σ : Type} (hs : List (Handler σ)) (n : Nat)
    (st : EngineState σ) (T : Target)
    (hB : stampsMatch ((alGet st.db.targets T).getD "")
        ((getHandler hs T).stamp st.world T) = true) :
    build hs (n+1) st T =
      match depsLoop hs (build hs n) T (buildLoopEntry st T).2 (buildLoopEntry st T).1 with
      | (st', some b) => (st', b)
      | (st', none) => (st', true) := by
  obtain ⟨v, hv⟩ : ∃ v, alGet st.db.targets T = some v := by
    cases h : alGet st.db.targets T with
    | none =>
        have : (alGet st.db.targets T).getD "" = "" := by rw [h]; rfl
        exact absurd this (stampsMatch_left_ne_empty hB)
    | some v => exact ⟨v, rfl⟩
  have hv' : (alGet st.db.targets T).getD "" = v := by rw [hv]; rfl
  rw [hv'] at hB
  rw [build]
  have hp : targetsGetD (pushEvent st (Event.buildCall T)) T =
      (v, pushEvent st (Event.buildCall T)) := by
    simp [targetsGetD, pushEvent, hv]
  rw [hp]
  have hw : (pushEvent st (Event.buildCall T)).world = st.world := rfl
  rw [if_pos (by rw [hw]; exact hB)]
  rfl

theorem depsLoop_of_allFresh {σ : Type} (hs : List (Handler σ))
    (sub : EngineState σ → Target → EngineState σ × Bool) (T : Target) :
    ∀ (l : List (Target × Stamp)) (st : EngineState σ),
      depsAllFreshB hs sub st l = true →
      (depsLoop hs sub T st l).2 = none := by
  intro l
  induction l with
  | nil => intro st _; simp [depsLoop]
  | cons dp rest ih =>
      intro st h
      simp only [depsAllFreshB, Bool.and_eq_true] at h
      simp only [depsLoop, h.1, if_true]
      exact ih _ h.2

/-- If no per-dependency comparison fails, the loop runs the sub-build on
every recorded dependency, and the logged `build` call for each of them
survives in the final trace. -/
theorem depsLoop_allFresh_mem {σ : Type} (hs : List (Handler σ))
    (sub : EngineState σ → Target → EngineState σ × Bool) (T : Target)
    (hext : ∀ st d, ∃ tl, ((sub st d).1).events = st.events ++ tl)
    (hcall : ∀ st d, Event.buildCall d ∈ ((sub st d).1).events) :
    ∀ (l : List (Target × Stamp)) (st : EngineState σ),
      depsAllFreshB hs sub st l = true →
      ∀ dp ∈ l, Event.buildCall dp.1 ∈ ((depsLoop hs sub T st l).1).events := by
  intro l
  induction l with
  | nil => intro st _ dp hdp; simp at hdp
  | cons hd rest ih =>
      intro st h dp hdp
      simp only [depsAllFreshB, Bool.and_eq_true] at h
      simp only [depsLoop, h.1, if_true]
      rcases List.mem_cons.mp hdp with hdp | hdp
      · subst hdp
        exact events_mem_of_ext
          (depsLoop_events_ext hs sub T hext rest ((sub st dp.1).1)) (hcall st dp.1)
      · exact ih _ h.2 dp hdp

/-- If no per-dependency comparison fails, every recorded dependency ends
up as a key of the `targets` map. -/
theorem depsLoop_allFresh_hasKey {σ : Type} (hs : List (Handler σ))
    (sub : EngineState σ → Target → EngineState σ × Bool) (T : Target)
    (hmono : ∀ st d k, hasKey st.db.targets k = true →
      hasKey ((sub st d).1).db.targets k = true)
    (hself : ∀ st d, hasKey ((sub st d).1).db.targets d = true) :
    ∀ (l : List (Target × Stamp)) (st : EngineState σ),
      depsAllFreshB hs sub st l = true →
      ∀ dp ∈ l, hasKey ((depsLoop hs sub T st l).1).db.targets dp.1 = true := by
  intro l
  induction l with
  | nil => intro st _ dp hdp; simp at hdp
  | cons hd rest ih =>
      intro st h dp hdp
      simp only [depsAllFreshB, Bool.and_eq_true] at h
      simp only [depsLoop, h.1, if_true]
      rcases List.mem_cons.mp hdp with hdp | hdp
      · subst hdp
        exact depsLoop_hasKey_mono hs sub T hmono rest ((sub st dp.1).1) dp.1
          (hself st dp.1)
      · exact ih _ h.2 dp hdp

/-! ### Steady state: a target whose own stamp and all of whose recorded
dependencies' stamps (and the dependencies' own `targets` entries) match the
current world, with leaf dependencies -/

theorem depsGetD_fst {σ : Type} (st : EngineState σ) (t : Target) :
    (depsGetD st t).1 = (alGet st.db.dependencies t).getD [] := by
  cases h : alGet st.db.dependencies t <;> simp [depsGetD, h]

theorem depsGetD_proj {σ : Type} (st : EngineState σ) (t k : Target) :
    (alGet (depsGetD st t).2.db.dependencies k).getD [] =
      (alGet st.db.dependencies k).getD [] := by
  cases h : alGet st.db.dependencies t with
  | some l => simp [depsGetD, h]
  | none =>
      simp only [depsGetD, h]
      rw [alGet_append]
      cases hk : alGet st.db.dependencies k with
      | some l => simp
      | none =>
          by_cases hkt : t = k
          · subst hkt
            simp [alGet]
          · simp [alGet, hkt]

theorem buildLoopEntry_fst {σ : Type} (st : EngineState σ) (T : Target) :
    (buildLoopEntry st T).1 = (alGet st.db.dependencies T).getD [] := by
  rw [buildLoopEntry, depsGetD_fst]
  rfl

theorem buildLoopEntry_world {σ : Type} (st : EngineState σ) (T : Target) :
    (buildLoopEntry st T).2.world = st.world := by
  rw [buildLoopEntry, depsGetD_world]
  rfl

theorem buildLoopEntry_targets {σ : Type} (st : EngineState σ) (T : Target) :
    (buildLoopEntry st T).2.db.targets = st.db.targets := by
  rw [buildLoopEntry, depsGetD_targets]
  rfl

theorem buildLoopEntry_events {σ : Type} (st : EngineState σ) (T : Target) :
    (buildLoopEntry st T).2.events = st.events ++ [Event.buildCall T] := by
  rw [buildLoopEntry, depsGetD_events]
  rfl

theorem buildLoopEntry_proj {σ : Type} (st : EngineState σ) (T k : Target) :
    (alGet (buildLoopEntry st T).2.db.dependencies k).getD [] =
      (alGet st.db.dependencies k).getD [] := by
  rw [buildLoopEntry, depsGetD_proj]
  rfl

/-- A recorded dependency that is in steady state: present in `targets`,
its recorded `targets` stamp and the stamp recorded against the consumer
both match its current stamp, and it has no recorded sub-dependencies. -/
def steadyDepOK {σ : Type} (hs : List (Handler σ)) (st : EngineState σ)
    (dp : Target × Stamp) : Bool :=
  (alGet st.db.targets dp.1).isSome
    && (stampsMatch ((alGet st.db.targets dp.1).getD "")
          ((getHandler hs dp.1).stamp st.world dp.1)
    && (stampsMatch dp.2 ((getHandler hs dp.1).stamp st.world dp.1)
    && ((alGet st.db.dependencies dp.1).getD []).isEmpty))

/-- A target in steady state: its recorded stamp matches its current stamp
and every recorded dependency is in steady state. This is the state left
behind by a completed build whose dependencies are leaves. -/
def steadyOK {σ : Type} (hs : List (Handler σ)) (st : EngineState σ) (T : Target) : Bool :=
  stampsMatch ((alGet st.db.targets T).getD "") ((getHandler hs T).stamp st.world T)
    && ((alGet st.db.dependencies T).getD []).all (steadyDepOK hs st)

/-- What a no-op (re-)traversal preserves relative to the starting state
`st0`: the world, the `targets` map, every recorded dependency list, and
the trace grows only by non-`build_impl` events. -/
def SteadyInv {σ : Type} (st0 st : EngineState σ) : Prop :=
  st.world = st0.world ∧ st.db.targets = st0.db.targets
    ∧ (∀ k, (alGet st.db.dependencies k).getD [] = (alGet st0.db.dependencies k).getD [])
    ∧ ∀ e ∈ st.events, e ∈ st0.events ∨ isImplCall e = false

theorem steady_build_leaf {σ : Type} (hs : List (Handler σ)) (st0 : EngineState σ)
    (d : Target) (_hd1 : (alGet st0.db.targets d).isSome = true)
    (hd2 : stampsMatch ((alGet st0.db.targets d).getD "")
      ((getHandler hs d).stamp st0.world d) = true)
    (hd3 : ((alGet st0.db.dependencies d).getD []).isEmpty = true) :
    ∀ (m : Nat) (st : EngineState σ), SteadyInv st0 st →
      SteadyInv st0 (build hs m st d).1 := by
  intro m st hInv
  obtain ⟨hw, ht, hdp, hev⟩ := hInv
  cases m with
  | zero => exact ⟨hw, ht, hdp, hev⟩
  | succ n =>
      have hcond : stampsMatch ((alGet st.db.targets d).getD "")
          ((getHandler hs d).stamp st.world d) = true := by
        rw [ht, hw]
        exact hd2
      rw [build_succ_of_selfMatch hs n st d hcond]
      have hE1 : (buildLoopEntry st d).1 = [] := by
        rw [buildLoopEntry_fst, hdp d]
        simpa using hd3
      rw [hE1]
      simp only [depsLoop]
      refine ⟨?_, ?_, ?_, ?_⟩
      · rw [buildLoopEntry_world, hw]
      · rw [buildLoopEntry_targets, ht]
      · intro k
        rw [buildLoopEntry_proj, hdp k]
      · intro e he
        rw [buildLoopEntry_events] at he
        rcases List.mem_append.mp he with he | he
        · exact hev e he
        · right
          simp only [List.mem_singleton] at he
          subst he
          rfl

theorem steady_loop {σ : Type} (hs : List (Handler σ)) (st0 : EngineState σ)
    (T : Target) (n : Nat) :
    ∀ (l : List (Target × Stamp)) (st : EngineState σ), SteadyInv st0 st →
      (∀ dp ∈ l, steadyDepOK hs st0 dp = true) →
      SteadyInv st0 (depsLoop hs (build hs n) T st l).1 ∧
        (depsLoop hs (build hs n) T st l).2 = none := by
  intro l
  induction l with
  | nil =>
      intro st hInv _
      exact ⟨hInv, rfl⟩
  | cons dp rest ih =>
      intro st hInv hall
      have hdp := hall dp (List.mem_cons_self dp rest)
      simp only [steadyDepOK, Bool.and_eq_true] at hdp
      obtain ⟨hd1, hd2, hd3, hd4⟩ := hdp
      have hInv1 : SteadyInv st0 ((build hs n st dp.1).1) :=
        steady_build_leaf hs st0 dp.1 hd1 hd2 hd4 n st hInv
      have hmatch : stampsMatch dp.2
          ((getHandler hs dp.1).stamp ((build hs n st dp.1).1).world dp.1) = true := by
        rw [hInv1.1]
        exact hd3
      simp only [depsLoop, hmatch, if_true]
      exact ih _ hInv1 (fun x hx => hall x (List.mem_cons_of_mem dp hx))

/-! ### The dependency record written by a rebuild -/

/-- Keep the first occurrence of each element, accumulating the elements
already seen. -/
def firstDedupGo (seen : List Target) : List Target → List Target
  | [] => []
  | t :: rest =>
      if t ∈ seen then firstDedupGo seen rest else t :: firstDedupGo (t :: seen) rest

theorem firstDedupGo_congr {s1 s2 : List Target} (h : ∀ x, x ∈ s1 ↔ x ∈ s2) :
    ∀ l, firstDedupGo s1 l = firstDedupGo s2 l := by
  intro l
  induction l generalizing s1 s2 with
  | nil => rfl
  | cons t rest ih =>
      by_cases hm : t ∈ s1
      · rw [firstDedupGo, if_pos hm, firstDedupGo, if_pos ((h t).mp hm)]
        exact ih h
      · rw [firstDedupGo, if_neg hm, firstDedupGo, if_neg (fun hc => hm ((h t).mpr hc))]
        refine congrArg (t :: ·) (ih ?_)
        intro x
        simp only [List.mem_cons]
        exact or_congr Iff.rfl (h x)

theorem alSet_keys_mem {α : Type} (m : List (String × α)) (k : String) (v : α)
    (h : k ∈ m.map Prod.fst) : (alSet m k v).map Prod.fst = m.map Prod.fst := by
  induction m with
  | nil => simp at h
  | cons kv rest ih =>
      by_cases hk : kv.1 = k
      · simp [alSet, hk]
      · have h' : k ∈ rest.map Prod.fst := by
          rcases List.mem_map.mp h with ⟨x, hx, hxk⟩
          rcases List.mem_cons.mp hx with hx | hx
          · exact absurd (by rw [← hx]; exact hxk) hk
          · exact List.mem_map.mpr ⟨x, hx, hxk⟩
        simp [alSet, hk, ih h']

theorem alSet_keys_not_mem {α : Type} (m : List (String × α)) (k : String) (v : α)
    (h : k ∉ m.map Prod.fst) : (alSet m k v).map Prod.fst = m.map Prod.fst ++ [k] := by
  induction m with
  | nil => simp [alSet]
  | cons kv rest ih =>
      have hk : kv.1 ≠ k := by
        intro hc
        exact h (List.mem_map.mpr ⟨kv, List.mem_cons_self kv rest, hc⟩)
      have h' : k ∉ rest.map Prod.fst := by
        intro hc
        rcases List.mem_map.mp hc with ⟨x, hx, hxk⟩
        exact h (List.mem_map.mpr ⟨x, List.mem_cons_of_mem kv hx, hxk⟩)
      simp [alSet, hk, ih h']

theorem runSteps_deps_keys {σ : Type} (hs : List (Handler σ)) (T : Target) :
    ∀ (steps : List (BIStep σ)) (st : EngineState σ),
      ((alGet (runSteps hs T st steps).db.dependencies T).getD []).map Prod.fst =
        ((alGet st.db.dependencies T).getD []).map Prod.fst ++
          firstDedupGo (((alGet st.db.dependencies T).getD []).map Prod.fst)
            (registersOf steps) := by
  intro steps
  induction steps with
  | nil => intro st; simp [runSteps, registersOf, firstDedupGo]
  | cons s rest ih =>
      intro st
      cases s with
      | mutate f =>
          rw [show runSteps hs T st (BIStep.mutate f :: rest) =
              runSteps hs T { st with world := f st.world } rest from rfl]
          rw [ih _]
          rfl
      | register d =>
          rw [show runSteps hs T st (BIStep.register d :: rest) =
              runSteps hs T (registerDependency hs st T d) rest from rfl]
          rw [ih _]
          have hreg : (alGet (registerDependency hs st T d).db.dependencies T).getD [] =
              alSet ((alGet st.db.dependencies T).getD []) d
                ((getHandler hs d).stamp st.world d) := by
            simp [registerDependency, alGet_alSet_self]
          rw [hreg]
          by_cases hd : d ∈ ((alGet st.db.dependencies T).getD []).map Prod.fst
          · rw [alSet_keys_mem _ _ _ hd]
            rw [show registersOf (BIStep.register d :: rest) = d :: registersOf rest from rfl]
            rw [firstDedupGo, if_pos hd]
          · rw [alSet_keys_not_mem _ _ _ hd]
            rw [show registersOf (BIStep.register d :: rest) = d :: registersOf rest from rfl]
            rw [firstDedupGo, if_neg hd]
            rw [List.append_assoc]
            refine congrArg _ ?_
            rw [List.singleton_append]
            refine congrArg (d :: ·) ?_
            refine firstDedupGo_congr ?_ _
            intro x
            simp [List.mem_append, List.mem_cons, or_comm]

/-! ### Concrete scenarios -/

/-- A concrete world for test scenarios: a filesystem mapping paths to
stamps, read by `FileHandler`-like stamp functions. -/
abbrev FS := List (Target × Stamp)

/-- A catch-all source handler over `FS`: like the source's
`SourceFileHandler`, it accepts every target, stamps from the world, and
its build-impl body is a no-op. -/
def srcHandler : Handler FS :=
  ⟨fun _ => true, fun w t => (alGet w t).getD "", fun _ => []⟩

/-- The consumer target `"t"` is fresh (recorded stamp `"S"` matches the
world), and its one recorded dependency `"a"` (recorded stamp `"A"`,
matching the world) is absent from the `targets` map. -/
def stC1 : EngineState FS :=
  ⟨[("t", "S"), ("a", "A")], ⟨[("t", "S")], [("t", [("a", "A")])]⟩, emptyDB, []⟩

/-- Like `stC1`, but the dependency `"a"` additionally has a stale entry
`"OLD"` in the `targets` map, so its sub-build rebuilds it, while the
stamp recorded against `"t"` still matches the world. -/
def stC2 : EngineState FS :=
  ⟨[("t", "S"), ("a", "A")], ⟨[("t", "S"), ("a", "OLD")], [("t", [("a", "A")])]⟩, emptyDB, []⟩

/-- A derived-target handler for `"b"`: its build-impl body writes `"b"`
into the world (stamp `"SB"`) and registers `"a"` as a source dependency. -/
def hB5 : Handler FS :=
  ⟨fun t => t == "b", fun w t => (alGet w t).getD "",
   fun t =>
     if t == "b" then [BIStep.mutate (fun w => alSet w "b" "SB"), BIStep.register "a"]
     else []⟩

/-- Start state for the C5 scenario: `"b"` is recorded with stamp `"SB"`
but absent from the world (its artifact was deleted), the source `"a"`
exists with stamp `"A"`, and nothing else is recorded. -/
def st0C5 : EngineState FS := ⟨[("a", "A")], ⟨[("b", "SB")], []⟩, emptyDB, []⟩

/-- A fully steady state: `"t"` and its leaf dependency `"a"` are both
recorded with stamps matching the world, and the stamp recorded against
`"t"` for `"a"` also matches. -/
def stC5s : EngineState FS :=
  ⟨[("t", "S"), ("a", "A")], ⟨[("t", "S"), ("a", "A")], [("t", [("a", "A")]), ("a", [])]⟩,
   emptyDB, []⟩

/-- A handler for `"b"` whose build-impl body only registers `"a"`. -/
def hReg10 : Handler FS :=
  ⟨fun t => t == "b", fun w t => (alGet w t).getD "",
   fun t => if t == "b" then [BIStep.register "a"] else []⟩

/-- Start state for the C10 counterexample: empty DB, the source `"a"`
exists in the world, `"b"` does not. -/
def st10 : EngineState FS := ⟨[("a", "A")], emptyDB, emptyDB, []⟩

/-- The empty start state over `FS`. -/
def st7 : EngineState FS := ⟨[], emptyDB, emptyDB, []⟩

/-- A concrete stat function: `"f"` exists with fixed stat fields, every
other path fails to stat. -/
def statFc : Target → Option StatResult :=
  fun t =>
    if t = "f" then some ⟨33188, 42, 66309, 1000, 1000, 5, 1700000000000000001, 1700000000000000002⟩
    else none

/-! ### The claims -/

/-- C1, counterexample to the claim as stated: in `stC1` the recorded
dependency `"a"` of `"t"` is not a key of the `targets` map, yet
`build("t")` does invoke `build` on it (the logged `buildCall "a"` is the
`print` at the top of `Build.build`): the source's dependency loop (line
127) calls `self.build(dep)` unconditionally, with no membership guard. -/
theorem c1_counterexample :
    alGet stC1.db.targets "a" = none ∧
      ("a", "A") ∈ (alGet stC1.db.dependencies "t").getD [] ∧
      Event.buildCall "a" ∈ ((build [srcHandler] 2 stC1 "t").1).events := by
  refine ⟨rfl, by decide, by decide⟩

/-- C1 (amended): when the target's own stamp matches and no
per-dependency comparison fails, `build(target)` recursively invokes
`build` on every recorded dependency — whether or not it is a key of the
`targets` map — and the per-dependency stamp re-read decides staleness. -/
theorem c1_theorem {σ : Type} (hs : List (Handler σ)) (st : EngineState σ) (T : Target)
    (n : Nat)
    (hB : stampsMatch ((alGet st.db.targets T).getD "")
        ((getHandler hs T).stamp st.world T) = true)
    (hDyn : depsAllFreshB hs (build hs (n+1)) (buildLoopEntry st T).2
        (buildLoopEntry st T).1 = true) :
    ∀ dp ∈ (buildLoopEntry st T).1,
      Event.buildCall dp.1 ∈ ((build hs (n+2) st T).1).events := by
  intro dp hdp
  rw [build_succ_of_selfMatch hs (n+1) st T hB]
  have hmem := depsLoop_allFresh_mem hs (build hs (n+1)) T
    (build_events_ext hs (n+1)) (fun st' d => build_buildCall_mem hs n st' d)
    (buildLoopEntry st T).1 (buildLoopEntry st T).2 hDyn dp hdp
  rcases hdl : depsLoop hs (build hs (n+1)) T (buildLoopEntry st T).2
      (buildLoopEntry st T).1 with ⟨st', ob⟩
  rw [hdl] at hmem
  cases ob with
  | none => simpa using hmem
  | some b => simpa using hmem

/-- C1 witness: the amended theorem at the `stC1` scenario. -/
theorem c1_witness :
    Event.buildCall "a" ∈ ((build [srcHandler] 2 stC1 "t").1).events :=
  c1_theorem [srcHandler] stC1 "t" 0 (by decide) (by decide) ("a", "A") (by decide)

/-- C2: the per-dependency staleness decision compares the stamp recorded
for the dependency under the target against the dependency's current
stamp, re-read after the dependency's own sub-build completes (that is
what `depsAllFreshB` evaluates); the dependency's entry in the `targets`
map is not consulted. When the target's own stamp matches and every such
comparison succeeds, the dependency loop finishes without rebuilding the
target and `build` returns True. -/
theorem c2_theorem {σ : Type} (hs : List (Handler σ)) (st : EngineState σ) (T : Target)
    (n : Nat)
    (hB : stampsMatch ((alGet st.db.targets T).getD "")
        ((getHandler hs T).stamp st.world T) = true)
    (hDyn : depsAllFreshB hs (build hs n) (buildLoopEntry st T).2
        (buildLoopEntry st T).1 = true) :
    (depsLoop hs (build hs n) T (buildLoopEntry st T).2 (buildLoopEntry st T).1).2 = none ∧
      (build hs (n+1) st T).2 = true := by
  have hnone := depsLoop_of_allFresh hs (build hs n) T (buildLoopEntry st T).1
    (buildLoopEntry st T).2 hDyn
  refine ⟨hnone, ?_⟩
  rw [build_succ_of_selfMatch hs n st T hB]
  rcases hdl : depsLoop hs (build hs n) T (buildLoopEntry st T).2
      (buildLoopEntry st T).1 with ⟨st', ob⟩
  rw [hdl] at hnone
  simp only at hnone
  subst hnone
  rfl

/-- C2 witness: the A-B-A scenario `stC2`. The dependency `"a"` has a
stale `targets` entry `"OLD"` (so its sub-build rebuilds it), but its
current stamp `"A"` equals the stamp recorded against `"t"`, so `"t"` is
not rebuilt and `build` returns True. -/
theorem c2_witness :
    (depsLoop [srcHandler] (build [srcHandler] 1) "t" (buildLoopEntry stC2 "t").2
        (buildLoopEntry stC2 "t").1).2 = none ∧
      (build [srcHandler] 2 stC2 "t").2 = true :=
  c2_theorem [srcHandler] stC2 "t" 1 (by decide) (by decide)

/-- C3: `stamps_match` holds exactly when both operands are non-empty and
equal; in particular both empty-sentinel operands never match, and any
non-empty string matches itself. -/
theorem c3_theorem :
    stampsMatch "" "" = false ∧ (∀ s, stampsMatch "" s = false) ∧
      (∀ s, stampsMatch s "" = false) ∧ (∀ s, stampsMatch s s = !(s == "")) ∧
      ∀ a b, stampsMatch a b = true ↔ a ≠ "" ∧ b ≠ "" ∧ a = b := by
  refine ⟨rfl, fun s => rfl, fun s => ?_, fun s => ?_, fun a b => ?_⟩
  · simp [stampsMatch]
  · cases h : s == "" <;> simp [stampsMatch, h]
  · simp only [stampsMatch, Bool.and_eq_true, Bool.not_eq_true', beq_eq_false_iff_ne,
      ne_eq, beq_iff_eq]

/-- C4, counterexample to the claim as stated: a `rebuild` that changes
the in-memory DB leaves the on-disk DB untouched, so the DB is not
persisted at the end of the rebuild — `Build.rebuild` (lines 100-106)
contains no call to `save`/`save_build_db`. -/
theorem c4_counterexample :
    (rebuild ([] : List (Handler FS)) st7 "x").1.db ≠
      (rebuild ([] : List (Handler FS)) st7 "x").1.disk := by
  decide

/-- C4 (amended): `rebuild` never touches the on-disk DB; persistence
happens only through the explicit `save_build_db`, which copies the
in-memory DB to disk (in the repository it is called once, at the end of
`Album.render`). -/
theorem c4_theorem {σ : Type} (hs : List (Handler σ)) (st : EngineState σ) (t : Target) :
    (rebuild hs st t).1.disk = st.disk ∧ (saveBuildDB st).disk = st.db :=
  ⟨rebuild_disk hs st t, rfl⟩

/-- C5, counterexample to the claim as stated: from `st0C5`, `build("b")`
returns True (a successful rebuild of `"b"`, which registers the leaf
source `"a"`); the immediately following `build("b")`, with no
intervening state change, invokes a handler's build-impl body — the
defaultdict read inserts `"a"` into `targets` with the empty stamp, the
empty stamp matches nothing, and `"a"` is rebuilt (a no-op body, but the
rebuild routine is invoked once). -/
theorem c5_counterexample :
    (build [hB5, srcHandler] 2 st0C5 "b").2 = true ∧
      ((build [hB5, srcHandler] 2
          { (build [hB5, srcHandler] 2 st0C5 "b").1 with events := [] } "b").1.events).any
        isImplCall = true := by
  decide

/-- C5 (amended): in a steady state — the target's recorded stamp matches
its current stamp, and every recorded dependency is a key of `targets`
with matching current stamp, with matching stamp recorded against the
target, and with no recorded sub-dependencies (the state reached after
the leaf dependencies have been traversed once) — `build` invokes no
build-impl body at all: every event it adds to the trace is a logged
`build` call, never a `build_impl` invocation. -/
theorem c5_theorem {σ : Type} (hs : List (Handler σ)) (st : EngineState σ) (T : Target)
    (h : steadyOK hs st T = true) (fuel : Nat) :
    ∀ e ∈ ((build hs fuel st T).1).events, e ∈ st.events ∨ isImplCall e = false := by
  have h' := h
  simp only [steadyOK, Bool.and_eq_true, List.all_eq_true] at h'
  obtain ⟨h1, h2⟩ := h'
  cases fuel with
  | zero =>
      intro e he
      exact Or.inl (by simpa [build] using he)
  | succ n =>
      rw [build_succ_of_selfMatch hs n st T h1]
      have hInvE : SteadyInv st (buildLoopEntry st T).2 := by
        refine ⟨buildLoopEntry_world st T, buildLoopEntry_targets st T,
          fun k => buildLoopEntry_proj st T k, ?_⟩
        intro e he
        rw [buildLoopEntry_events st T] at he
        rcases List.mem_append.mp he with he | he
        · exact Or.inl he
        · right
          simp only [List.mem_singleton] at he
          subst he
          rfl
      have hall : ∀ dp ∈ (buildLoopEntry st T).1, steadyDepOK hs st dp = true := by
        rw [buildLoopEntry_fst st T]
        exact h2
      have hloop := steady_loop hs st T n (buildLoopEntry st T).1
        (buildLoopEntry st T).2 hInvE hall
      rcases hdl : depsLoop hs (build hs n) T (buildLoopEntry st T).2
          (buildLoopEntry st T).1 with ⟨st', ob⟩
      rw [hdl] at hloop
      obtain ⟨⟨_, _, _, hev⟩, hnone⟩ := hloop
      simp only at hnone
      subst hnone
      exact hev

/-- C5 witness: the amended theorem at the steady state `stC5s`. -/
theorem c5_witness :
    Event.buildCall "t" ∈ stC5s.events ∨ isImplCall (Event.buildCall "t") = false :=
  c5_theorem [srcHandler] stC5s "t" (by decide) 2 (Event.buildCall "t") (by decide)

/-- C6: after `rebuild(target)`, the dependency record of the target
consists of exactly the dependencies registered by the handler's
build-impl body during that rebuild, in first-registration order — the
prior record is erased first, so no entries survive from earlier builds. -/
theorem c6_theorem {σ : Type} (hs : List (Handler σ)) (st : EngineState σ) (T : Target) :
    ((alGet ((rebuild hs st T).1).db.dependencies T).getD []).map Prod.fst =
      firstDedupGo [] (registersOf ((getHandler hs T).build_impl T)) := by
  have hdeps : (rebuild hs st T).1.db.dependencies =
      (runSteps hs T
        (pushEvent
          { st with db := { st.db with
              targets := alErase st.db.targets T
              dependencies := alErase st.db.dependencies T } }
          (Event.buildImplCall T))
        ((getHandler hs T).build_impl T)).db.dependencies := by
    simp [rebuild]
  rw [hdeps, runSteps_deps_keys]
  rw [show alGet (pushEvent
      { st with db := { st.db with
          targets := alErase st.db.targets T
          dependencies := alErase st.db.dependencies T } }
      (Event.buildImplCall T)).db.dependencies T = alGet (alErase st.db.dependencies T) T
    from rfl]
  rw [alGet_alErase_self]
  rfl

/-- C7, counterexample to the claim as stated: the base `Handler`'s
`build_impl` is `pass` (line 63) — it does not raise. `rebuild` of a
target no handler accepts completes normally: the build-impl invocation
happens, does nothing, and the target is recorded with the empty stamp. -/
theorem c7_counterexample :
    (rebuild ([] : List (Handler FS)) st7 "x").1.db = BuildDB.mk [("x", "")] [] ∧
      (rebuild ([] : List (Handler FS)) st7 "x").1.events = [Event.buildImplCall "x"] ∧
      (rebuild ([] : List (Handler FS)) st7 "x").2 = false := by
  decide

/-- C7 (amended): when no handler in the chain accepts a target,
`get_handler` returns the base (null) handler, whose `can_handle` is
false for every target, whose stamp is the empty sentinel for every
target, and whose build-impl body is a no-op (it does not raise). -/
theorem c7_theorem {σ : Type} (hs : List (Handler σ)) (t : Target) (w : σ)
    (h : ∀ h' ∈ hs, h'.can_handle t = false) :
    getHandler hs t = baseHandler σ ∧ (baseHandler σ).can_handle t = false ∧
      (baseHandler σ).stamp w t = "" ∧ (baseHandler σ).build_impl t = [] := by
  refine ⟨?_, rfl, rfl, rfl⟩
  rw [getHandler, List.find?_eq_none.mpr ?_]
  intro h' hm
  simp [h h' hm]

/-- C7 witness: the empty handler chain, over `FS`. -/
theorem c7_witness :
    getHandler ([] : List (Handler FS)) "x" = baseHandler FS ∧
      (baseHandler FS).can_handle "x" = false ∧ (baseHandler FS).stamp [] "x" = "" ∧
      (baseHandler FS).build_impl "x" = [] :=
  c7_theorem ([] : List (Handler FS)) "x" [] (fun h' hm => absurd hm (by simp))

/-- C8, counterexample to the claim as stated: a document whose
`"targets"` key holds a number is not treated as an empty map — the value
is not iterable, so the `dict.update` call raises TypeError and `load` is
not failure-free on wrong-typed keys. -/
theorem c8_counterexample :
    BuildDB.load (some (JVal.obj [("targets", JVal.num 5)])) ≠ Except.ok emptyDB ∧
      BuildDB.load (some (JVal.obj [("targets", JVal.num 5)])) =
        Except.error "TypeError: object is not iterable" := by
  constructor
  · intro h
    exact Except.noConfusion h
  · rfl

/-- C8 (amended): `load` yields the empty DB for a missing/unreadable/
malformed file (`none`), for every non-object top level, and for missing
`"targets"`/`"dependencies"` keys. But a present key of the wrong type is
not simply treated as empty. A `"targets"` value goes through
`dict.update`: an object loads its items; any other iterable is consumed
as a sequence of key/value pairs (the empty string and any pair sequence
load fine — and a pair sequence even populates the map); a non-iterable
value (number, boolean, null) raises TypeError; a non-empty string, or a
sequence with a bad element, raises the element's ValueError/TypeError. A
non-object `"dependencies"` value always raises AttributeError at
`.items()`. -/
theorem c8_theorem :
    BuildDB.load none = Except.ok emptyDB ∧
      BuildDB.load (some JVal.null) = Except.ok emptyDB ∧
      (∀ b, BuildDB.load (some (JVal.bool b)) = Except.ok emptyDB) ∧
      (∀ n, BuildDB.load (some (JVal.num n)) = Except.ok emptyDB) ∧
      (∀ s, BuildDB.load (some (JVal.str s)) = Except.ok emptyDB) ∧
      (∀ xs, BuildDB.load (some (JVal.arr xs)) = Except.ok emptyDB) ∧
      BuildDB.load (some (JVal.obj [])) = Except.ok emptyDB ∧
      (∀ tfs, BuildDB.load (some (JVal.obj [("targets", JVal.obj tfs)])) =
        Except.ok ⟨updatePairs (tfs.map (fun kv => (kv.1, stampOfJ kv.2))), []⟩) ∧
      (∀ tfs dfs, BuildDB.load (some (JVal.obj
          [("targets", JVal.obj tfs), ("dependencies", JVal.obj dfs)])) =
        Except.ok ⟨updatePairs (tfs.map (fun kv => (kv.1, stampOfJ kv.2))),
          depsOfFields dfs⟩) ∧
      (∀ elems pairs, seqPairs elems = Except.ok pairs →
        BuildDB.load (some (JVal.obj [("targets", JVal.arr elems)])) =
          Except.ok ⟨updatePairs pairs, []⟩) ∧
      BuildDB.load (some (JVal.obj [("targets", JVal.str "")])) = Except.ok emptyDB ∧
      (∀ n, BuildDB.load (some (JVal.obj [("targets", JVal.num n)])) =
        Except.error "TypeError: object is not iterable") ∧
      (∀ b, BuildDB.load (some (JVal.obj [("targets", JVal.bool b)])) =
        Except.error "TypeError: object is not iterable") ∧
      BuildDB.load (some (JVal.obj [("targets", JVal.null)])) =
        Except.error "TypeError: object is not iterable" ∧
      (∀ s, s ≠ "" → BuildDB.load (some (JVal.obj [("targets", JVal.str s)])) =
        Except.error "ValueError: dictionary update sequence element has wrong length") ∧
      (∀ elems msg, seqPairs elems = Except.error msg →
        BuildDB.load (some (JVal.obj [("targets", JVal.arr elems)])) =
          Except.error msg) ∧
      ∀ v, JVal.isObj v = false →
        BuildDB.load (some (JVal.obj [("dependencies", v)])) =
          Except.error "AttributeError: dependencies value has no .items" := by
  refine ⟨rfl, rfl, fun _ => rfl, fun _ => rfl, fun _ => rfl, fun _ => rfl, rfl,
    fun _ => rfl, fun _ _ => rfl, ?_, rfl, fun _ => rfl, fun _ => rfl, rfl, ?_, ?_, ?_⟩
  · intro elems pairs hp
    rw [show BuildDB.load (some (JVal.obj [("targets", JVal.arr elems)])) =
        (match seqPairs elems with
         | Except.error msg => Except.error msg
         | Except.ok tpairs => Except.ok ⟨updatePairs tpairs, depsOfFields []⟩)
      from rfl]
    rw [hp]
    rfl
  · intro s hs
    rw [show BuildDB.load (some (JVal.obj [("targets", JVal.str s)])) =
        (match (if s = "" then (Except.ok [] : Except String (List (Target × Stamp)))
                else Except.error
                  "ValueError: dictionary update sequence element has wrong length") with
         | Except.error msg => Except.error msg
         | Except.ok tpairs => Except.ok ⟨updatePairs tpairs, depsOfFields []⟩)
      from rfl]
    rw [if_neg hs]
  · intro elems msg hp
    rw [show BuildDB.load (some (JVal.obj [("targets", JVal.arr elems)])) =
        (match seqPairs elems with
         | Except.error msg => Except.error msg
         | Except.ok tpairs => Except.ok ⟨updatePairs tpairs, depsOfFields []⟩)
      from rfl]
    rw [hp]
  · intro v hv
    cases v with
    | obj fs => simp [JVal.isObj] at hv
    | null => rfl
    | bool b => rfl
    | num n => rfl
    | str s => rfl
    | arr xs => rfl

/-- C8 witness: a pair-sequence `"targets"` value loads and populates the
map, a non-empty string raises ValueError, and a non-object
`"dependencies"` value raises AttributeError. -/
theorem c8_witness :
    BuildDB.load (some (JVal.obj [("targets",
        JVal.arr [JVal.arr [JVal.str "a", JVal.str "b"]])])) =
      Except.ok ⟨[("a", "b")], []⟩ ∧
    BuildDB.load (some (JVal.obj [("targets", JVal.str "ab")])) =
      Except.error "ValueError: dictionary update sequence element has wrong length" ∧
    BuildDB.load (some (JVal.obj [("dependencies", JVal.num 7)])) =
      Except.error "AttributeError: dependencies value has no .items" := by
  obtain ⟨-, -, -, -, -, -, -, -, -, hseq, -, -, -, -, hstr, -, hdep⟩ := c8_theorem
  exact ⟨hseq [JVal.arr [JVal.str "a", JVal.str "b"]] [("a", "b")] rfl,
    hstr "ab" (by decide), hdep (JVal.num 7) rfl⟩

/-- C9: when stat succeeds, `FileHandler.stamp` is exactly the eight stat
fields mode, inode, device, uid, gid, size, mtime_ns, ctime_ns, in that
fixed order, joined by single spaces; when stat fails it is the empty
sentinel. -/
theorem c9_theorem :
    (∀ (statF : Target → Option StatResult) (t : Target) (s : StatResult),
        statF t = some s → fileStamp statF t = specFileStamp s) ∧
      ∀ (statF : Target → Option StatResult) (t : Target),
        statF t = none → fileStamp statF t = "" := by
  constructor
  · intro statF t s h
    simp only [fileStamp, h]
    simp [specFileStamp, statFieldsList, String.intercalate, String.intercalate.go]
  · intro statF t h
    simp only [fileStamp, h]

/-- C9 witness: a concrete stat record and a failing path. -/
theorem c9_witness :
    fileStamp statFc "f" =
        specFileStamp ⟨33188, 42, 66309, 1000, 1000, 5, 1700000000000000001,
          1700000000000000002⟩ ∧
      fileStamp statFc "g" = "" :=
  ⟨c9_theorem.1 statFc "f" _ rfl, c9_theorem.2 statFc "g" rfl⟩

/-- C10, counterexample to the claim as stated: `build("b")` from the
empty DB takes the rebuild path; the rebuild registers `"a"` under `"b"`
but never inserts `"a"` into `targets`, so a dependency recorded under a
just-built target is not a key of the `targets` map. -/
theorem c10_counterexample :
    ("a", "A") ∈
        (alGet ((build [hReg10, srcHandler] 1 st10 "b").1).db.dependencies "b").getD [] ∧
      alGet ((build [hReg10, srcHandler] 1 st10 "b").1).db.targets "a" = none := by
  decide

/-- C10 (amended): `build(T)` always leaves `T` a key of the `targets`
map (the defaultdict read inserts it with the empty stamp on the read
path, and a rebuild records its new stamp); and on the dependency-checking
path with no failing comparison, every recorded dependency — on each of
which `build` is invoked — likewise ends up a key of `targets`.
Dependencies freshly registered during a rebuild, however, need not be
keys (see the counterexample). -/
theorem c10_theorem :
    (∀ (σ : Type) (hs : List (Handler σ)) (fuel : Nat) (st : EngineState σ) (T : Target),
        hasKey ((build hs (fuel+1) st T).1).db.targets T = true) ∧
      ∀ (σ : Type) (hs : List (Handler σ)) (st : EngineState σ) (T : Target) (n : Nat),
        stampsMatch ((alGet st.db.targets T).getD "")
            ((getHandler hs T).stamp st.world T) = true →
        depsAllFreshB hs (build hs (n+1)) (buildLoopEntry st T).2
            (buildLoopEntry st T).1 = true →
        ∀ dp ∈ (buildLoopEntry st T).1,
          hasKey ((build hs (n+2) st T).1).db.targets dp.1 = true := by
  constructor
  · intro σ hs fuel st T
    exact build_hasKey_self hs fuel st T
  · intro σ hs st T n hB hDyn dp hdp
    rw [build_succ_of_selfMatch hs (n+1) st T hB]
    have hmem := depsLoop_allFresh_hasKey hs (build hs (n+1)) T
      (fun st' d k hk => build_hasKey_mono hs (n+1) st' d k hk)
      (fun st' d => build_hasKey_self hs n st' d)
      (buildLoopEntry st T).1 (buildLoopEntry st T).2 hDyn dp hdp
    rcases hdl : depsLoop hs (build hs (n+1)) T (buildLoopEntry st T).2
        (buildLoopEntry st T).1 with ⟨st', ob⟩
    rw [hdl] at hmem
    cases ob with
    | none => simpa using hmem
    | some b => simpa using hmem

/-- C10 witness: the amended theorem at the `stC1` scenario. -/
theorem c10_witness :
    hasKey ((build [srcHandler] 1 stC1 "x").1).db.targets "x" = true ∧
      hasKey ((build [srcHandler] 2 stC1 "t").1).db.targets "a" = true :=
  ⟨c10_theorem.1 FS [srcHandler] 0 stC1 "x",
   c10_theorem.2 FS [srcHandler] stC1 "t" 0 (by decide) (by decide) ("a", "A") (by decide)⟩

end Boldibuild
